import Mathlib

/-!
Shallow embedding of the hierarchical state machine engine of `src/hsm.h`.

The engine is event-driven and strictly synchronous.  State identities and
event kinds (the `TypeInfoStorage` type tags of the source) are modelled as
natural numbers with value equality.  A concrete state kind is described by a
`StateSpec`: its ordered list of claimed event kinds (the `reactions`
type-list of the source), one handler per kind (the `react` overloads), and
its declared initial substate identity (the `InitType` template parameter,
which defaults to the state itself).  A handler body ends in one of the four
convenience results `finish` / `discard` / `transit` / `defer`, exactly as the
source prescribes; this is the `Action` type.

The engine state (`Machine`) carries the state stack, the event queue and the
deferred queue of `StateMachine`, plus:
  * `next_clone`, a counter giving each event clone produced by
    `Event::Clone` a distinct identity (`process_event` clones, `defer` does
    not), and
  * `trace`, an append-only log of the observable calls the engine makes
    (`on_enter` / `on_exit` invocations with the stack index they happen at,
    each `state->Dispatch` consultation, each event taken up for dispatch,
    and the unknown-event diagnostic).

Fallible operations return `Except Err`.  `Err.assertFail` is a failed
`hsm_assert`, `Err.abortUnknown` the `hsm_assert(!ABORT_WHEN_RECEIVE_UNKNOWN_EVENT)`
abort, and `Err.emptyQueue` marks `front()` / `pop_front()` on an empty
`std::list`, which is undefined behaviour in the source.  The recursive
procedures (`PushState`, `ProcessQueueEvent`, `ProcessDeferredEvent`) take a
fuel argument purely to make the recursion structural; `Err.outOfFuel` never
occurs when enough fuel is supplied.  The compile-time abort switches of the
source are modelled as an explicit `Cfg` record.
-/

namespace Hsm

/-- Event kind tag: the `EventTypeInfo` of an event class, value equality. -/
abbrev EventKind := Nat

/-- State identity tag: the `StateTypeInfo` of a state class; a
`StateFactory` is identified with the identity of the state it allocates. -/
abbrev StateId := Nat

/-- Result returned by a user `react` handler body: the source contract is
that a handler ends in `return finish()` / `discard()` / `transit<T>()` /
`defer()`. -/
inductive Action
  | finishA
  | discardA
  | transitA (target : StateId)
  | deferA
deriving DecidableEq

/-- Transition type tag, as in `Transition::Type { Sibling, No, End }`. -/
inductive TransitionType
  | Sibling
  | No
  | End
deriving DecidableEq

/-- A `Transition` value: a type tag plus an optional state factory (the
factory pointer is null for `No` and `End` transitions). -/
structure Transition where
  transition_type : TransitionType
  state_factory : Option StateId
deriving DecidableEq

/-- Check for the `No` transition type (`Transition::IsNo`). -/
def Transition.IsNo (t : Transition) : Bool :=
  t.transition_type == TransitionType.No

/-- Check for the `Sibling` transition type (`Transition::IsSibling`). -/
def Transition.IsSibling (t : Transition) : Bool :=
  t.transition_type == TransitionType.Sibling

/-- The `NoTransition()` constructor: handled, no state change. -/
def NoTransition : Transition := ⟨TransitionType.No, none⟩

/-- The `EndTransition()` constructor: the event kind was not claimed. -/
def EndTransition : Transition := ⟨TransitionType.End, none⟩

/-- The `SiblingTransition(stateFactory)` constructor. -/
def SiblingTransition (target : StateId) : Transition :=
  ⟨TransitionType.Sibling, some target⟩

/-- Description of one concrete state kind: claimed event kinds in
declaration order, a handler per kind, and the declared initial substate
(`InitType`, defaulting to the state itself in the source). -/
structure StateSpec where
  reactions : List EventKind
  react : EventKind → Action
  initTarget : StateId

/-- A program assigns a `StateSpec` to every state identity. -/
abbrev Prog := StateId → StateSpec

/-- A live state instance on the stack: its identity plus the
`stack_depth_` recorded by `InitState` at creation time. -/
structure StateInstance where
  id : StateId
  stack_depth : Nat
deriving DecidableEq

/-- An engine-owned event clone: its kind plus the identity of the clone
(`Event::Clone` allocates a fresh one; `defer` reuses the existing one). -/
structure EvHandle where
  kind : EventKind
  cloneId : Nat
deriving DecidableEq

/-- Observable engine actions, logged in order of occurrence. -/
inductive TraceEv
  | enter (sid : StateId) (idx : Nat)
  | exit (sid : StateId) (idx : Nat)
  | consult (depth : Nat) (sid : StateId)
  | dispatchEv (e : EvHandle)
  | unknownEvent
deriving DecidableEq

/-- Failure outcomes: failed `hsm_assert`, the unknown-event abort, list
underflow (undefined behaviour in the source), and fuel exhaustion (an
artefact of the embedding, never reached with enough fuel). -/
inductive Err
  | assertFail
  | abortUnknown
  | emptyQueue
  | outOfFuel
deriving DecidableEq

/-- The compile-time abort switches of the source, as an explicit record. -/
structure Cfg where
  abortOnUnknownEvent : Bool
deriving DecidableEq

/-- The mutable state of a `StateMachine`. -/
structure Machine where
  owner : Option Nat
  initial_transition : Transition
  state_stack : List StateInstance
  event_queue : List EvHandle
  deferred_queue : List EvHandle
  next_clone : Nat
  trace : List TraceEv
deriving DecidableEq

/-- A machine as default-constructed: null owner, `No` initial transition,
empty stack and queues. -/
def initMachine : Machine :=
  { owner := none
    initial_transition := NoTransition
    state_stack := []
    event_queue := []
    deferred_queue := []
    next_clone := 0
    trace := [] }

/-- The `DispatchImpl` template recursion of `state_base`.  `lastK` is the
kind of the *last* element of the full reactions list (the `End` type
computed once in `Dispatch`); the generic case checks the front kind and
recurses on the tail, and the `Begin = End` specialisation — selected as
soon as the front kind *equals* `lastK` — checks that kind and stops.
`some a` means the matching handler ran and returned `a`; `none` means
`EndTransition()`. -/
def DispatchImpl (react : EventKind → Action) (lastK ek : EventKind) :
    List EventKind → Option Action
  | [] => none
  | k :: rest =>
    if k = lastK then
      if k = ek then some (react k) else none
    else
      if k = ek then some (react k) else DispatchImpl react lastK ek rest

/-- The virtual `state_base::Dispatch`: fetch front and back of the
reactions list and run `DispatchImpl`.  The source requires a non-empty
reactions list (`front`/`back` of an empty `mpl` sequence do not compile);
the `none` fallback for an empty list is unreachable. -/
def Dispatch (prog : Prog) (sid : StateId) (ek : EventKind) : Option Action :=
  match (prog sid).reactions.getLast? with
  | none => none
  | some lastK => DispatchImpl (prog sid).react lastK ek (prog sid).reactions

/-- The `StateMachine::DeferEvent` member: assert the event queue is
non-empty and append its front handle — the same clone, not a copy — to the
back of the deferred queue. -/
def DeferEvent (m : Machine) : Except Err Machine :=
  match m.event_queue with
  | [] => .error .assertFail
  | e :: _ => .ok { m with deferred_queue := m.deferred_queue ++ [e] }

/-- The `State::defer` convenience result: run `DeferEvent` on the owning
machine and return `NoTransition()`. -/
def deferCall (m : Machine) : Except Err (Machine × Transition) :=
  match DeferEvent m with
  | .error err => .error err
  | .ok m1 => .ok (m1, NoTransition)

/-- Execute a handler result: `finish`/`discard` are `NoTransition()`,
`transit` is `SiblingTransition(...)`, `defer` runs its queue side effect
and yields `NoTransition()`. -/
def runAction (m : Machine) (a : Action) : Except Err (Machine × Transition) :=
  match a with
  | .finishA => .ok (m, NoTransition)
  | .discardA => .ok (m, NoTransition)
  | .transitA target => .ok (m, SiblingTransition target)
  | .deferA => deferCall m

/-- Offer the front event to one state: run `state->Dispatch` and package
the returned `Transition`, with `EndTransition()` when no claimed kind
matched. -/
def stateDispatch (prog : Prog) (m : Machine) (sid : StateId) (ek : EventKind) :
    Except Err (Machine × Transition) :=
  match Dispatch prog sid ek with
  | none => .ok (m, EndTransition)
  | some a => runAction m a

/-- The virtual `HasInitializeState` of `state_base`: true exactly when the
declared `InitType` differs from the state itself. -/
def HasInitializeState (prog : Prog) (sid : StateId) : Bool :=
  (prog sid).initTarget != sid

/-- The virtual `GetInitializeState` of `state_base`: a `SiblingTransition`
to the declared initial substate. -/
def GetInitializeState (prog : Prog) (sid : StateId) : Transition :=
  SiblingTransition (prog sid).initTarget

/-- The free function `CreateState`: dereference the transition's factory
(`hsm_assert(state_factory_ != 0)`), allocate the state and record the given
stack depth via `InitState`. -/
def CreateState (t : Transition) (stack_depth : Nat) : Except Err StateInstance :=
  match t.state_factory with
  | none => .error .assertFail
  | some target => .ok ⟨target, stack_depth⟩

mutual

/-- The `StateMachine::PushState` member: `push_back` the instance, invoke
`on_enter`, then, if the state declares an initial substate, immediately
create and push it.  Fuel only bounds the cascade recursion. -/
def PushState (prog : Prog) (fuel : Nat) (m : Machine) (state : StateInstance) :
    Except Err Machine :=
  match fuel with
  | 0 => .error .outOfFuel
  | fuel + 1 =>
    let m1 : Machine :=
      { m with
        state_stack := m.state_stack ++ [state]
        trace := m.trace ++ [TraceEv.enter state.id m.state_stack.length] }
    if HasInitializeState prog state.id then
      CreateAndPushInitialState prog fuel m1 (GetInitializeState prog state.id)
    else
      .ok m1
termination_by structural fuel

/-- The `StateMachine::CreateAndPushInitialState` member: create the target
state of the transition — passing the literal `0` of the source as the
recorded stack depth — and push it.  The fuel step here is embedding
instrumentation only (it makes the mutual recursion with `PushState`
structural). -/
def CreateAndPushInitialState (prog : Prog) (fuel : Nat) (m : Machine)
    (t : Transition) : Except Err Machine :=
  match fuel with
  | 0 => .error .outOfFuel
  | fuel + 1 =>
    match CreateState t 0 with
    | .error err => .error err
    | .ok initial_state => PushState prog fuel m initial_state
termination_by structural fuel

end

/-- The `StateMachine::PopState` member: assert the stack is non-empty,
invoke `on_exit` on the back instance, `pop_back` and destroy it. -/
def PopState (m : Machine) : Except Err Machine :=
  match m.state_stack.getLast? with
  | none => .error .assertFail
  | some state =>
    .ok { m with
          state_stack := m.state_stack.dropLast
          trace := m.trace ++ [TraceEv.exit state.id (m.state_stack.length - 1)] }

/-- The countdown loop of `PopStateAtDepth`: `n` repetitions of
`PopState()`. -/
def popLoop (m : Machine) : Nat → Except Err Machine
  | 0 => .ok m
  | n + 1 =>
    match PopState m with
    | .error err => .error err
    | .ok m1 => popLoop m1 n

/-- The `StateMachine::PopStateAtDepth` member: assert the depth is in
range, then pop from the leaf index `size - 1` down to `depth` inclusive,
i.e. `size - depth` pops. -/
def PopStateAtDepth (m : Machine) (depth : Nat) : Except Err Machine :=
  if depth < m.state_stack.length then
    popLoop m (m.state_stack.length - depth)
  else
    .error .assertFail

mutual

/-- The `StateMachine::ProcessQueueEvent` member: log the front event being
taken up and walk the stack from the root. -/
def ProcessQueueEvent (prog : Prog) (cfg : Cfg) (fuel : Nat) (m : Machine) :
    Except Err Machine :=
  match fuel with
  | 0 => .error .outOfFuel
  | fuel + 1 =>
    match m.event_queue with
    | [] => .error .emptyQueue
    | e :: _ =>
      pqeLoop prog cfg fuel
        { m with trace := m.trace ++ [TraceEv.dispatchEv e] } e 0
termination_by structural fuel

/-- The depth loop of `ProcessQueueEvent`.  While `depth` is in range:
fetch the state at `depth` (`GetStateAtDepth`), offer it the event, and
switch on the transition type — `End` continues at `depth + 1`, `No`
returns, `Sibling` pops every state from `depth` up, creates and pushes the
target at `depth`, replays deferred events and returns.  When the loop runs
off the leaf, emit the unknown-event diagnostic and abort if so
configured. -/
def pqeLoop (prog : Prog) (cfg : Cfg) (fuel : Nat) (m : Machine) (e : EvHandle)
    (depth : Nat) : Except Err Machine :=
  match fuel with
  | 0 => .error .outOfFuel
  | fuel + 1 =>
    if h : depth < m.state_stack.length then
      let state := m.state_stack.get ⟨depth, h⟩
      let m1 : Machine :=
        { m with trace := m.trace ++ [TraceEv.consult depth state.id] }
      match stateDispatch prog m1 state.id e.kind with
      | .error err => .error err
      | .ok (m2, t) =>
        match t.transition_type with
        | .End => pqeLoop prog cfg fuel m2 e (depth + 1)
        | .No => .ok m2
        | .Sibling =>
          match PopStateAtDepth m2 depth with
          | .error err => .error err
          | .ok m3 =>
            match CreateState t depth with
            | .error err => .error err
            | .ok target_state =>
              match PushState prog fuel m3 target_state with
              | .error err => .error err
              | .ok m4 => ProcessDeferredEvent prog cfg fuel m4
    else
      let m1 : Machine := { m with trace := m.trace ++ [TraceEv.unknownEvent] }
      if cfg.abortOnUnknownEvent then .error .abortUnknown else .ok m1
termination_by structural fuel

/-- The `StateMachine::ProcessDeferredEvent` member: iterate as many times
as the deferred queue currently holds events. -/
def ProcessDeferredEvent (prog : Prog) (cfg : Cfg) (fuel : Nat) (m : Machine) :
    Except Err Machine :=
  match fuel with
  | 0 => .error .outOfFuel
  | fuel + 1 => pdeLoop prog cfg fuel m m.deferred_queue.length
termination_by structural fuel

/-- One countdown iteration of `ProcessDeferredEvent`: push the current
front of the deferred queue onto the front of the event queue, dispatch it
recursively, then `pop_front` both queues.  `front()` / `pop_front()` on an
empty `std::list` is undefined behaviour in the source and yields
`Err.emptyQueue` here. -/
def pdeLoop (prog : Prog) (cfg : Cfg) (fuel : Nat) (m : Machine) (i : Nat) :
    Except Err Machine :=
  match fuel with
  | 0 => .error .outOfFuel
  | fuel + 1 =>
    match i with
    | 0 => .ok m
    | i + 1 =>
      match m.deferred_queue with
      | [] => .error .emptyQueue
      | e :: _ =>
        match ProcessQueueEvent prog cfg fuel
            { m with event_queue := e :: m.event_queue } with
        | .error err => .error err
        | .ok m2 =>
          match m2.deferred_queue with
          | [] => .error .emptyQueue
          | _ :: dtail =>
            match m2.event_queue with
            | [] => .error .emptyQueue
            | _ :: etail =>
              pdeLoop prog cfg fuel
                { m2 with deferred_queue := dtail, event_queue := etail } i
termination_by structural fuel

end

/-- The drain loop of `StateMachine::process_event`: while the event queue
is non-empty, dispatch the front event, then `pop_front` it. -/
def peLoop (prog : Prog) (cfg : Cfg) (fuel : Nat) (m : Machine) :
    Except Err Machine :=
  match fuel with
  | 0 => .error .outOfFuel
  | fuel + 1 =>
    match m.event_queue with
    | [] => .ok m
    | _ :: _ =>
      match ProcessQueueEvent prog cfg fuel m with
      | .error err => .error err
      | .ok m1 =>
        match m1.event_queue with
        | [] => .error .emptyQueue
        | _ :: etail => peLoop prog cfg fuel { m1 with event_queue := etail }

/-- The `StateMachine::process_event` member: clone the caller's event —
allocating a fresh engine-owned handle — append the clone to the event
queue, and drain the queue. -/
def process_event (prog : Prog) (cfg : Cfg) (fuel : Nat) (m : Machine)
    (ek : EventKind) : Except Err Machine :=
  peLoop prog cfg fuel
    { m with
      next_clone := m.next_clone + 1
      event_queue := m.event_queue ++ [⟨ek, m.next_clone⟩] }

/-- The `StateMachine::initialize` member (written `Initialize` here):
assert the machine was never initialised (`initial_transition_.IsNo()`) and
the stack is empty, record the initial transition and the owner, then create
and push the root state. -/
def Initialize (prog : Prog) (fuel : Nat) (m : Machine) (root : StateId)
    (owner : Option Nat) : Except Err Machine :=
  if m.initial_transition.IsNo then
    if m.state_stack.isEmpty then
      CreateAndPushInitialState prog fuel
        { m with
          initial_transition := SiblingTransition root
          owner := owner }
        (SiblingTransition root)
    else
      .error .assertFail
  else
    .error .assertFail

/-- The `StateMachine::stop` member: if the stack is non-empty pop
everything from depth 0, then assert the stack is empty. -/
def stop (m : Machine) : Except Err Machine :=
  if 0 < m.state_stack.length then
    match PopStateAtDepth m 0 with
    | .error err => .error err
    | .ok m1 => if m1.state_stack.isEmpty then .ok m1 else .error .assertFail
  else
    if m.state_stack.isEmpty then .ok m else .error .assertFail


/-! ### Specification-side helper functions

These compute the values the engine is expected to produce: the cascade of
initial substates a push unfolds into, the instances and `on_enter` /
`on_exit` / consultation trace segments it generates, and projections of
runs used to state concrete facts. -/

/-- The chain of states entered by pushing `sid`: `sid` followed by its
declared initial substates, stopping at a state whose declared initial
substate is itself.  `none` when the chain does not close within `n`
states (the engine would recurse forever on such a program). -/
def initChain (prog : Prog) : Nat → StateId → Option (List StateId)
  | 0, _ => none
  | n + 1, sid =>
    if (prog sid).initTarget = sid then
      some [sid]
    else
      match initChain prog n (prog sid).initTarget with
      | none => none
      | some c => some (sid :: c)

/-- The state instances a push of a chain creates: the head carries the
stack depth handed to `CreateState`; every cascaded substate is created by
`CreateAndPushInitialState` with the literal depth `0` of the source. -/
def chainInstances : List StateId → Nat → List StateInstance
  | [], _ => []
  | sid :: rest, dep => ⟨sid, dep⟩ :: rest.map (fun s => ⟨s, 0⟩)

/-- The `on_enter` trace of pushing a chain whose head lands at stack index
`base`. -/
def chainEnters : List StateId → Nat → List TraceEv
  | [], _ => []
  | sid :: rest, base => TraceEv.enter sid base :: chainEnters rest (base + 1)

/-- The consultation trace of offering an event to `k` successive states of
stack `s` starting at index `depth`. -/
def consultsFor (s : List StateInstance) : Nat → Nat → List TraceEv
  | _, 0 => []
  | depth, k + 1 =>
    match s.get? depth with
    | none => []
    | some inst => TraceEv.consult depth inst.id :: consultsFor s (depth + 1) k

/-- The `on_exit` trace of popping `k` states off stack `s`, leaf first. -/
def exitsDownTo : List StateInstance → Nat → List TraceEv
  | _, 0 => []
  | s, k + 1 =>
    match s.getLast? with
    | none => []
    | some inst => TraceEv.exit inst.id (s.length - 1) :: exitsDownTo s.dropLast k

/-- The stack index recorded in a trace event (`0` for non-exit events). -/
def exitIdx : TraceEv → Nat
  | TraceEv.exit _ i => i
  | _ => 0

/-- The depth recorded in a consultation trace event (`0` for other
events). -/
def consultDepth : TraceEv → Nat
  | TraceEv.consult d _ => d
  | _ => 0

/-- The state identity recorded in a trace event (`0` for non-exit
events). -/
def exitSid : TraceEv → StateId
  | TraceEv.exit sid _ => sid
  | _ => 0

/-- The events taken up for dispatch, in order, extracted from a trace. -/
def dispatchesOf : List TraceEv → List EvHandle
  | [] => []
  | TraceEv.dispatchEv e :: rest => e :: dispatchesOf rest
  | _ :: rest => dispatchesOf rest

/-- Whether a dispatch outcome is a `transit` (would execute a Sibling
transition). -/
def isTransitOpt : Option Action → Bool
  | some (Action.transitA _) => true
  | _ => false

/-- Whether a dispatch outcome resolves with no side effect on the machine:
unclaimed, or a handler returning `finish` / `discard`. -/
def calmOpt : Option Action → Bool
  | none => true
  | some Action.finishA => true
  | some Action.discardA => true
  | _ => false

/-- State stack of a run (empty when the run failed). -/
def stackOf : Except Err Machine → List StateInstance
  | .ok m => m.state_stack
  | .error _ => []

/-- Deferred queue of a run (empty when the run failed). -/
def deferredOf : Except Err Machine → List EvHandle
  | .ok m => m.deferred_queue
  | .error _ => []

/-- Kinds of the events taken up for dispatch during a run, in order. -/
def dispatchKindsOf : Except Err Machine → List EventKind
  | .ok m => (dispatchesOf m.trace).map EvHandle.kind
  | .error _ => []

/-! ### Concrete programs used in witnesses and counterexamples -/

/-- Both abort switches of the source default to `true`; runs that must not
abort use `cfgQuiet`. -/
def cfgAbort : Cfg := ⟨true⟩

/-- Configuration with the unknown-event abort disabled. -/
def cfgQuiet : Cfg := ⟨false⟩

/-- The example program of the specification: state `0` (root, claims only
kind `10`) cascades into state `1`, which claims `20` (transit to `2`) and
`30` (defer); state `2` claims `30` (finish). -/
def progW : Prog := fun sid =>
  if sid = 0 then
    { reactions := [10], react := fun _ => Action.finishA, initTarget := 1 }
  else if sid = 1 then
    { reactions := [20, 30]
      react := fun k => if k = 20 then Action.transitA 2 else Action.deferA
      initTarget := 1 }
  else if sid = 2 then
    { reactions := [30], react := fun _ => Action.finishA, initTarget := 2 }
  else
    { reactions := [0], react := fun _ => Action.finishA, initTarget := sid }

/-- Program for the C2 counterexample: state `0` defers kind `1` and
transitions to `1` on kind `2`; state `1` transitions to `2` on kind `1`;
state `2` discards kind `1`. -/
def progC2 : Prog := fun sid =>
  if sid = 0 then
    { reactions := [1, 2]
      react := fun k => if k = 1 then Action.deferA else Action.transitA 1
      initTarget := 0 }
  else if sid = 1 then
    { reactions := [1], react := fun _ => Action.transitA 2, initTarget := 1 }
  else
    { reactions := [1], react := fun _ => Action.discardA, initTarget := sid }

/-- The C2 counterexample run: initialise at state `0`, defer an event of
kind `1`, then send kind `2`, whose transition replays the deferred event;
that replay transitions again while the deferred entry is still queued. -/
def c2run : Except Err Machine :=
  (Initialize progC2 10 initMachine 0 none).bind fun m =>
  (process_event progC2 cfgAbort 30 m 1).bind fun m =>
  process_event progC2 cfgAbort 30 m 2

/-- Program for the C3 counterexample: state `0` defers kinds `1` and `2`
and transitions to `1` on kind `3`; state `1` transitions to `2` on the
first replayed kind; state `2` re-defers both kinds. -/
def progC3 : Prog := fun sid =>
  if sid = 0 then
    { reactions := [1, 2, 3]
      react := fun k => if k = 3 then Action.transitA 1 else Action.deferA
      initTarget := 0 }
  else if sid = 1 then
    { reactions := [1, 2]
      react := fun k => if k = 1 then Action.transitA 2 else Action.discardA
      initTarget := 1 }
  else
    { reactions := [1, 2], react := fun _ => Action.deferA, initTarget := sid }

/-- The C3 counterexample run: defer `A` (kind `1`, clone `0`) and `B`
(kind `2`, clone `1`), then send kind `3`, which transitions and replays. -/
def c3run : Except Err Machine :=
  (Initialize progC3 10 initMachine 0 none).bind fun m =>
  (process_event progC3 cfgAbort 40 m 1).bind fun m =>
  (process_event progC3 cfgAbort 40 m 2).bind fun m =>
  process_event progC3 cfgAbort 40 m 3

/-- Program for the C7 counterexample: a reactions list `[1, 2, 1]` whose
first element equals its last, with a real handler for kind `2`. -/
def progDup : Prog := fun _ =>
  { reactions := [1, 2, 1]
    react := fun k => if k = 2 then Action.transitA 5 else Action.finishA
    initTarget := 0 }


-- Equality of run results is decidable, enabling kernel evaluation of
-- concrete runs in the theorems below.
deriving instance DecidableEq for Except

/-- Machine used by the C10 witness: one state on the stack, one event
being dispatched, one event already deferred. -/
def mw10 : Machine :=
  { initMachine with
    state_stack := [⟨0, 0⟩]
    event_queue := [⟨7, 3⟩]
    deferred_queue := [⟨5, 2⟩] }

/-! ## Lemmas and claim theorems -/

theorem DispatchImpl_spec (react : EventKind → Action) (lastK ek : EventKind) :
    ∀ l : List EventKind, l.getLast? = some lastK →
      (∀ k ∈ l.dropLast, k ≠ lastK) →
      ((ek ∈ l → DispatchImpl react lastK ek l = some (react ek)) ∧
       (ek ∉ l → DispatchImpl react lastK ek l = none))
  | [], h, _ => by simp at h
  | [k], h, _ => by
    simp only [List.getLast?_singleton, Option.some.injEq] at h
    subst h
    constructor
    · intro hm
      simp only [List.mem_singleton] at hm
      subst hm
      simp [DispatchImpl]
    · intro hm
      simp only [List.mem_singleton] at hm
      have hke : ¬ k = ek := fun hh => hm hh.symm
      simp [DispatchImpl, hke]
  | k :: k2 :: rest, h, hd => by
    rw [List.getLast?_cons_cons] at h
    have hk : k ≠ lastK := by
      apply hd
      rw [List.dropLast_cons₂]
      exact List.mem_cons_self k _
    have hd' : ∀ x ∈ (k2 :: rest).dropLast, x ≠ lastK := by
      intro x hx
      apply hd
      rw [List.dropLast_cons₂]
      exact List.mem_cons_of_mem k hx
    have IH := DispatchImpl_spec react lastK ek (k2 :: rest) h hd'
    constructor
    · intro hm
      rcases List.mem_cons.mp hm with hek | hek
      · subst hek
        simp [DispatchImpl, hk]
      · by_cases hke : k = ek
        · subst hke
          simp [DispatchImpl, hk]
        · simp only [DispatchImpl, if_neg hk, if_neg hke]
          exact IH.1 hek
    · intro hm
      have hke : k ≠ ek := fun hh => hm (hh ▸ List.mem_cons_self k _)
      simp only [DispatchImpl, if_neg hk, if_neg hke]
      exact IH.2 fun hh => hm (List.mem_cons_of_mem k hh)

/-- C1: `CreateAndPushInitialState` hands the literal `0` to `CreateState`
as the recorded stack depth, so a substate created by initial-substate
cascading records depth `0` even though it is pushed at index `1`: in the
run below the instance at stack index `1` records `stack_depth = 0`.  The
`Sibling` branch of `ProcessQueueEvent` passes the true index, and the
specification asserts the invariant, so the cascade path is a slip in the
code. -/
theorem c1_cascaded_substate_records_depth_zero :
    stackOf (Initialize progW 10 initMachine 0 none) = [⟨0, 0⟩, ⟨1, 0⟩] ∧
    ¬ (∀ i inst,
        (stackOf (Initialize progW 10 initMachine 0 none)).get? i = some inst →
        inst.stack_depth = i) := by
  refine ⟨rfl, fun h => ?_⟩
  have h1 := h 1 ⟨1, 0⟩ (by rfl)
  exact absurd h1 (by decide)

set_option maxHeartbeats 1000000 in
/-- C2 counterexample: a deferred event whose replay itself executes a
transition is replayed again by the nested `ProcessDeferredEvent` (the
entry is popped only after the recursive dispatch returns), and the outer
replay loop then calls `pop_front` on an already empty deferred queue —
undefined behaviour in the source — so the replay recursion is neither
bounded by the number of accumulated deferred events nor guaranteed to
return. -/
theorem c2_counterexample : c2run = .error .emptyQueue := by
  simp [c2run, Initialize, Transition.IsNo, NoTransition, SiblingTransition, initMachine,
    CreateAndPushInitialState, CreateState, PushState, HasInitializeState, GetInitializeState,
    process_event, peLoop, ProcessQueueEvent, pqeLoop, ProcessDeferredEvent, pdeLoop,
    PopStateAtDepth, popLoop, PopState, stateDispatch, Dispatch, DispatchImpl, runAction,
    deferCall, DeferEvent, progC2, cfgAbort, EndTransition, Except.bind, List.get]

set_option maxHeartbeats 1000000 in
/-- C3 counterexample: events `A` (kind `1`) and `B` (kind `2`) sit in the
deferred queue, in that order, when an event of kind `3` triggers a
transition; because the replay of `A` itself transitions, the nested replay
runs `A` a second time and `B` once before `A`'s own iteration finishes,
the re-deferred copies make the final dispatch order `A, A, B, B`, and `B`
is still in the deferred queue when the run completes. -/
theorem c3_counterexample :
    deferredOf c3run = [⟨2, 1⟩] ∧
    dispatchKindsOf c3run = [1, 2, 3, 1, 1, 2, 2] := by
  constructor <;>
  simp [c3run, deferredOf, dispatchKindsOf, dispatchesOf, Initialize, Transition.IsNo,
    NoTransition, SiblingTransition, initMachine,
    CreateAndPushInitialState, CreateState, PushState, HasInitializeState, GetInitializeState,
    process_event, peLoop, ProcessQueueEvent, pqeLoop, ProcessDeferredEvent, pdeLoop,
    PopStateAtDepth, popLoop, PopState, stateDispatch, Dispatch, DispatchImpl, runAction,
    deferCall, DeferEvent, progC3, cfgAbort, EndTransition, Except.bind, List.get]

/-- C7 counterexample: the `DispatchImpl` template recursion stops at the
first reactions-list element whose type equals the *last* element's type,
so with the list `[1, 2, 1]` the claimed kind `2` is never consulted: the
dispatch of kind `2` returns `EndTransition` instead of running the
declared handler. -/
theorem c7_counterexample :
    (2 ∈ (progDup 0).reactions) ∧
    Dispatch progDup 0 2 = none ∧
    ¬ Dispatch progDup 0 2 = some ((progDup 0).react 2) := by
  exact ⟨by decide, rfl, by decide⟩

/-- C7 (amended): provided the last claimed kind occurs nowhere earlier in
the reactions list — in particular whenever the claimed kinds are distinct
— dispatch checks the claimed kinds in declaration order, the handler of
the first (hence any) claimed kind equal to the event's kind runs and its
`Transition` is the result, and when no claimed kind equals the event's
kind the result is `not_handled()` (`EndTransition`), with no fallthrough
to other states. -/
theorem c7_first_match_when_last_kind_unique (prog : Prog) (m : Machine)
    (sid : StateId) (ek lastK : EventKind)
    (hlast : (prog sid).reactions.getLast? = some lastK)
    (hdup : ∀ k ∈ (prog sid).reactions.dropLast, k ≠ lastK) :
    (ek ∈ (prog sid).reactions →
      Dispatch prog sid ek = some ((prog sid).react ek) ∧
      stateDispatch prog m sid ek = runAction m ((prog sid).react ek)) ∧
    (ek ∉ (prog sid).reactions →
      Dispatch prog sid ek = none ∧
      stateDispatch prog m sid ek = .ok (m, EndTransition)) := by
  have hs := DispatchImpl_spec (prog sid).react lastK ek (prog sid).reactions hlast hdup
  constructor
  · intro hm
    have hD : Dispatch prog sid ek = some ((prog sid).react ek) := by
      rw [Dispatch, hlast]
      exact hs.1 hm
    exact ⟨hD, by rw [stateDispatch, hD]⟩
  · intro hm
    have hD : Dispatch prog sid ek = none := by
      rw [Dispatch, hlast]
      exact hs.2 hm
    exact ⟨hD, by rw [stateDispatch, hD]⟩

/-- C7 witness: in `progW`, state `1` claims `[20, 30]` (distinct kinds);
dispatching kind `20` runs its handler, a `transit` to state `2`. -/
theorem c7_first_match_witness :
    (20 ∈ (progW 1).reactions) ∧
    Dispatch progW 1 20 = some ((progW 1).react 20) ∧
    stateDispatch progW initMachine 1 20 =
      runAction initMachine ((progW 1).react 20) := by
  have h := (c7_first_match_when_last_kind_unique progW initMachine 1 20 30
    (by decide) (by decide)).1 (by decide)
  exact ⟨by decide, h.1, h.2⟩

/-- C10: calling `defer` while an event is being dispatched appends exactly
the front-of-queue handle — the same engine-owned clone, no fresh clone is
allocated — to the back of the deferred queue and returns `NoTransition()`,
leaving the state stack and the event queue unchanged; calling it with an
empty event queue fails the `hsm_assert` in `DeferEvent`. -/
theorem c10_defer_front_handle (m : Machine) (e : EvHandle)
    (rest : List EvHandle) (hq : m.event_queue = e :: rest) :
    deferCall m =
      .ok ({ m with deferred_queue := m.deferred_queue ++ [e] }, NoTransition) ∧
    (∀ m2 : Machine, m2.event_queue = [] → deferCall m2 = .error .assertFail) := by
  constructor
  · rw [deferCall, DeferEvent, hq]
  · intro m2 h2
    rw [deferCall, DeferEvent, h2]

/-- C10 witness: deferring with front event `⟨7, 3⟩` appends that very
handle behind the already deferred `⟨5, 2⟩`. -/
theorem c10_defer_front_handle_witness :
    mw10.event_queue = [⟨7, 3⟩] ∧
    deferCall mw10 =
      .ok ({ mw10 with deferred_queue := mw10.deferred_queue ++ [⟨7, 3⟩] },
        NoTransition) := by
  exact ⟨rfl, (c10_defer_front_handle mw10 ⟨7, 3⟩ [] rfl).1⟩


theorem chainInstances_cons_zero (sid : StateId) (c : List StateId) (dep : Nat) :
    chainInstances (sid :: c) dep = ⟨sid, dep⟩ :: chainInstances c 0 := by
  cases c <;> simp [chainInstances]

theorem PushState_chain (prog : Prog) :
    ∀ (n fuel : Nat) (m : Machine) (sid : StateId) (dep : Nat) (c : List StateId),
      initChain prog n sid = some c → 2 * n ≤ fuel →
      PushState prog fuel m ⟨sid, dep⟩ =
        .ok { m with
              state_stack := m.state_stack ++ chainInstances c dep
              trace := m.trace ++ chainEnters c m.state_stack.length }
  | 0, fuel, m, sid, dep, c, hc, hf => by simp [initChain] at hc
  | n + 1, fuel, m, sid, dep, c, hc, hf => by
    simp only [initChain] at hc
    by_cases hself : (prog sid).initTarget = sid
    · rw [if_pos hself] at hc
      obtain rfl : [sid] = c := by simpa using hc
      obtain ⟨f, rfl⟩ : ∃ f, fuel = f + 1 := ⟨fuel - 1, by omega⟩
      simp [PushState, HasInitializeState, hself, chainInstances, chainEnters]
    · rw [if_neg hself] at hc
      cases hh : initChain prog n (prog sid).initTarget with
      | none => rw [hh] at hc; simp at hc
      | some c' =>
        rw [hh] at hc
        obtain rfl : sid :: c' = c := by simpa using hc
        obtain ⟨f', rfl⟩ : ∃ f', fuel = f' + 1 + 1 := ⟨fuel - 2, by omega⟩
        have IH := PushState_chain prog n f'
          { m with
            state_stack := m.state_stack ++ [⟨sid, dep⟩]
            trace := m.trace ++ [TraceEv.enter sid m.state_stack.length] }
          (prog sid).initTarget 0 c' hh (by omega)
        simp only [PushState, HasInitializeState, CreateAndPushInitialState,
          GetInitializeState, SiblingTransition, CreateState, bne_iff_ne, ne_eq,
          hself, not_false_eq_true, if_true]
        rw [IH]
        simp [chainInstances_cons_zero, chainEnters, List.append_assoc]

theorem popLoop_spec :
    ∀ (k : Nat) (m : Machine), k ≤ m.state_stack.length →
      popLoop m k =
        .ok { m with
              state_stack := m.state_stack.take (m.state_stack.length - k)
              trace := m.trace ++ exitsDownTo m.state_stack k }
  | 0, m, _ => by simp [popLoop, exitsDownTo]
  | k + 1, m, hk => by
    have hne : m.state_stack ≠ [] := by
      intro h
      rw [h] at hk
      simp at hk
    have hlast := List.getLast?_eq_getLast m.state_stack hne
    have IH := popLoop_spec k
      { m with
        state_stack := m.state_stack.dropLast
        trace := m.trace ++
          [TraceEv.exit (m.state_stack.getLast hne).id (m.state_stack.length - 1)] }
      (by simp [List.length_dropLast]; omega)
    simp only [popLoop, PopState, hlast]
    rw [IH]
    simp only [exitsDownTo, hlast, List.length_dropLast, List.dropLast_eq_take,
      List.take_take, List.append_assoc, List.singleton_append]
    have h1 : ((List.take (m.state_stack.length - 1) m.state_stack).length - k) ⊓
        (m.state_stack.length - 1) = m.state_stack.length - (k + 1) := by
      simp [List.length_take]
      omega
    rw [h1]

theorem PopStateAtDepth_spec (m : Machine) (d : Nat)
    (hd : d < m.state_stack.length) :
    PopStateAtDepth m d =
      .ok { m with
            state_stack := m.state_stack.take d
            trace := m.trace ++
              exitsDownTo m.state_stack (m.state_stack.length - d) } := by
  rw [PopStateAtDepth, if_pos hd, popLoop_spec _ _ (by omega)]
  have : m.state_stack.length - (m.state_stack.length - d) = d := by omega
  rw [this]

theorem exitsDownTo_map_exitIdx :
    ∀ (s : List StateInstance) (k : Nat), k ≤ s.length →
      (exitsDownTo s k).map exitIdx =
        ((List.range s.length).drop (s.length - k)).reverse
  | s, 0, _ => by simp [exitsDownTo]
  | s, k + 1, hk => by
    have hne : s ≠ [] := by
      intro h
      rw [h] at hk
      simp at hk
    have hlast := List.getLast?_eq_getLast s hne
    have hlen : 1 ≤ s.length := List.length_pos.mpr hne
    have IH := exitsDownTo_map_exitIdx s.dropLast k
      (by simp [List.length_dropLast]; omega)
    simp only [exitsDownTo, hlast, List.map_cons, exitIdx, IH,
      List.length_dropLast]
    obtain ⟨L, hL⟩ : ∃ L, s.length = L + 1 := ⟨s.length - 1, by omega⟩
    rw [hL]
    simp only [Nat.add_sub_cancel, List.range_succ]
    rw [List.drop_append_of_le_length (by simp [List.length_range])]
    simp

theorem exitsDownTo_map_exitSid :
    ∀ (s : List StateInstance) (k : Nat), k ≤ s.length →
      (exitsDownTo s k).map exitSid =
        ((s.drop (s.length - k)).map StateInstance.id).reverse
  | s, 0, _ => by simp [exitsDownTo]
  | s, k + 1, hk => by
    have hne : s ≠ [] := by
      intro h
      rw [h] at hk
      simp at hk
    have hlast := List.getLast?_eq_getLast s hne
    have IH := exitsDownTo_map_exitSid s.dropLast k
      (by simp [List.length_dropLast]; omega)
    simp only [exitsDownTo, hlast, List.map_cons, exitSid, IH,
      List.length_dropLast]
    conv_rhs => rw [← List.dropLast_append_getLast hne]
    rw [List.drop_append_of_le_length (by simp [List.length_dropLast])]
    simp [List.length_dropLast]


theorem pqeLoop_step_end (prog : Prog) (cfg : Cfg) (fuel : Nat) (m : Machine)
    (e : EvHandle) (depth : Nat) (h : depth < m.state_stack.length)
    (hD : Dispatch prog (m.state_stack.get ⟨depth, h⟩).id e.kind = none) :
    pqeLoop prog cfg (fuel + 1) m e depth =
      pqeLoop prog cfg fuel
        { m with trace := m.trace ++
            [TraceEv.consult depth (m.state_stack.get ⟨depth, h⟩).id] }
        e (depth + 1) := by
  simp only [pqeLoop]
  rw [dif_pos h]
  simp only [stateDispatch, hD, EndTransition]

theorem pqeLoop_step_finish (prog : Prog) (cfg : Cfg) (fuel : Nat) (m : Machine)
    (e : EvHandle) (depth : Nat) (h : depth < m.state_stack.length)
    (hD : Dispatch prog (m.state_stack.get ⟨depth, h⟩).id e.kind =
      some Action.finishA) :
    pqeLoop prog cfg (fuel + 1) m e depth =
      .ok { m with trace := m.trace ++
            [TraceEv.consult depth (m.state_stack.get ⟨depth, h⟩).id] } := by
  simp only [pqeLoop]
  rw [dif_pos h]
  simp only [stateDispatch, hD, runAction, NoTransition]

theorem pqeLoop_step_discard (prog : Prog) (cfg : Cfg) (fuel : Nat) (m : Machine)
    (e : EvHandle) (depth : Nat) (h : depth < m.state_stack.length)
    (hD : Dispatch prog (m.state_stack.get ⟨depth, h⟩).id e.kind =
      some Action.discardA) :
    pqeLoop prog cfg (fuel + 1) m e depth =
      .ok { m with trace := m.trace ++
            [TraceEv.consult depth (m.state_stack.get ⟨depth, h⟩).id] } := by
  simp only [pqeLoop]
  rw [dif_pos h]
  simp only [stateDispatch, hD, runAction, NoTransition]

theorem pqeLoop_step_defer (prog : Prog) (cfg : Cfg) (fuel : Nat) (m : Machine)
    (e : EvHandle) (depth : Nat) (h : depth < m.state_stack.length)
    (hD : Dispatch prog (m.state_stack.get ⟨depth, h⟩).id e.kind =
      some Action.deferA)
    (e2 : EvHandle) (tl : List EvHandle) (hq : m.event_queue = e2 :: tl) :
    pqeLoop prog cfg (fuel + 1) m e depth =
      .ok { m with
            deferred_queue := m.deferred_queue ++ [e2]
            trace := m.trace ++
              [TraceEv.consult depth (m.state_stack.get ⟨depth, h⟩).id] } := by
  simp only [pqeLoop]
  rw [dif_pos h]
  simp only [stateDispatch, hD, runAction, deferCall, DeferEvent, hq, NoTransition]

theorem pqeLoop_step_transit (prog : Prog) (cfg : Cfg) (fuel : Nat) (m : Machine)
    (e : EvHandle) (depth : Nat) (h : depth < m.state_stack.length)
    (tg : StateId)
    (hD : Dispatch prog (m.state_stack.get ⟨depth, h⟩).id e.kind =
      some (Action.transitA tg)) :
    pqeLoop prog cfg (fuel + 1) m e depth =
      (match PopStateAtDepth
          { m with trace := m.trace ++
              [TraceEv.consult depth (m.state_stack.get ⟨depth, h⟩).id] }
          depth with
       | .error err => .error err
       | .ok m3 =>
         match PushState prog fuel m3 ⟨tg, depth⟩ with
         | .error err => .error err
         | .ok m4 => ProcessDeferredEvent prog cfg fuel m4) := by
  simp only [pqeLoop]
  rw [dif_pos h]
  simp only [stateDispatch, hD, runAction, SiblingTransition, CreateState]

theorem pqeLoop_step_unknown (prog : Prog) (cfg : Cfg) (fuel : Nat) (m : Machine)
    (e : EvHandle) (depth : Nat) (h : ¬ depth < m.state_stack.length) :
    pqeLoop prog cfg (fuel + 1) m e depth =
      if cfg.abortOnUnknownEvent then .error .abortUnknown
      else .ok { m with trace := m.trace ++ [TraceEv.unknownEvent] } := by
  simp only [pqeLoop]
  rw [dif_neg h]

theorem ProcessQueueEvent_front (prog : Prog) (cfg : Cfg) (fuel : Nat)
    (m : Machine) (e : EvHandle) (rest : List EvHandle)
    (hq : m.event_queue = e :: rest) :
    ProcessQueueEvent prog cfg (fuel + 1) m =
      pqeLoop prog cfg fuel
        { m with trace := m.trace ++ [TraceEv.dispatchEv e] } e 0 := by
  simp only [ProcessQueueEvent, hq]

theorem pqeLoop_scan (prog : Prog) (cfg : Cfg) (e : EvHandle) :
    ∀ (k fuel depth : Nat) (m : Machine),
      depth + k ≤ m.state_stack.length →
      (∀ j (hj : j < m.state_stack.length), depth ≤ j → j < depth + k →
        Dispatch prog (m.state_stack.get ⟨j, hj⟩).id e.kind = none) →
      k < fuel →
      pqeLoop prog cfg fuel m e depth =
        pqeLoop prog cfg (fuel - k)
          { m with trace := m.trace ++ consultsFor m.state_stack depth k }
          e (depth + k)
  | 0, fuel, depth, m, _, _, _ => by simp [consultsFor]
  | k + 1, fuel, depth, m, hlen, hend, hf => by
    obtain ⟨F, rfl⟩ : ∃ F, fuel = F + 1 := ⟨fuel - 1, by omega⟩
    have hdepth : depth < m.state_stack.length := by omega
    rw [pqeLoop_step_end prog cfg F m e depth hdepth
      (hend depth hdepth (le_refl _) (by omega))]
    have hlen1 : depth + 1 + k ≤ m.state_stack.length := by omega
    have hend1 : ∀ j (hj : j < m.state_stack.length), depth + 1 ≤ j →
        j < depth + 1 + k →
        Dispatch prog (m.state_stack.get ⟨j, hj⟩).id e.kind = none :=
      fun j hj ha hb => hend j hj (by omega) (by omega)
    have IH := pqeLoop_scan prog cfg e k F (depth + 1)
      { m with trace := m.trace ++
          [TraceEv.consult depth (m.state_stack.get ⟨depth, hdepth⟩).id] }
      hlen1 hend1 (by omega)
    rw [IH]
    have hf2 : F - k = F + 1 - (k + 1) := by omega
    have hd2 : depth + 1 + k = depth + (k + 1) := by omega
    have hget : m.state_stack.get? depth =
        some (m.state_stack.get ⟨depth, hdepth⟩) := List.get?_eq_get hdepth
    simp only [hf2, hd2, consultsFor, hget, List.append_assoc,
      List.singleton_append]

theorem consultsFor_map_depth :
    ∀ (s : List StateInstance) (k depth : Nat), depth + k ≤ s.length →
      (consultsFor s depth k).map consultDepth = List.range' depth k
  | s, 0, depth, _ => by simp [consultsFor]
  | s, k + 1, depth, h => by
    have hdepth : depth < s.length := by omega
    have hget : s.get? depth = some (s.get ⟨depth, hdepth⟩) :=
      List.get?_eq_get hdepth
    have IH := consultsFor_map_depth s k (depth + 1) (by omega)
    simp only [consultsFor, hget, List.map_cons, consultDepth, IH, List.range']


theorem consultsFor_snoc :
    ∀ (s : List StateInstance) (k depth : Nat) (h : depth + k < s.length),
      consultsFor s depth k ++
          [TraceEv.consult (depth + k) (s.get ⟨depth + k, h⟩).id] =
        consultsFor s depth (k + 1)
  | s, 0, depth, h => by
    have hget : s.get? depth = some (s.get ⟨depth, by omega⟩) :=
      List.get?_eq_get (by omega)
    simp only [consultsFor, hget, Nat.add_zero, List.nil_append]
  | s, k + 1, depth, h => by
    have hdepth : depth < s.length := by omega
    have hget : s.get? depth = some (s.get ⟨depth, hdepth⟩) :=
      List.get?_eq_get hdepth
    have hfin : (⟨depth + (k + 1), h⟩ : Fin s.length) =
        ⟨depth + 1 + k, by omega⟩ := by
      simp only [Fin.mk.injEq]
      omega
    have harith : depth + (k + 1) = depth + 1 + k := by omega
    have IH := consultsFor_snoc s k (depth + 1) (by omega)
    simp only [consultsFor, hget, List.cons_append, hfin, harith]
    rw [IH]
    simp only [consultsFor]

theorem ProcessQueueEvent_scan (prog : Prog) (cfg : Cfg) (fuel : Nat)
    (m : Machine) (e : EvHandle) (rest : List EvHandle) (d : Nat)
    (hq : m.event_queue = e :: rest)
    (hd : d ≤ m.state_stack.length)
    (hend : ∀ j (hj : j < m.state_stack.length), j < d →
      Dispatch prog (m.state_stack.get ⟨j, hj⟩).id e.kind = none)
    (hfuel : d + 2 ≤ fuel) :
    ProcessQueueEvent prog cfg fuel m =
      pqeLoop prog cfg (fuel - 1 - d)
        { m with trace := (m.trace ++ [TraceEv.dispatchEv e]) ++
            consultsFor m.state_stack 0 d }
        e d := by
  obtain ⟨F, rfl⟩ : ∃ F, fuel = F + 1 := ⟨fuel - 1, by omega⟩
  rw [ProcessQueueEvent_front prog cfg F m e rest hq]
  have hscan := pqeLoop_scan prog cfg e d F 0
    { m with trace := m.trace ++ [TraceEv.dispatchEv e] }
    (show 0 + d ≤ m.state_stack.length by omega)
    (fun j hj ha hb => hend j hj (by omega))
    (by omega)
  rw [hscan]
  dsimp only
  simp only [Nat.zero_add, Nat.add_sub_cancel]

/-- C4: dispatching one event consults states in increasing depth order
starting at the root (the consultation log is depths `0, …, d`, in order):
a state answering `NotHandled` (`End`) passes the event to the next depth,
a `NoChange` answer at depth `d` (`finish`, `discard` or `defer` handler)
ends the dispatch with no deeper state consulted, and a `Sibling` answer at
depth `d` executes the single pop–push–replay sequence and returns, so at
most one transition is executed per dispatched event. -/
theorem c4_dispatch_scan (prog : Prog) (cfg : Cfg) (fuel : Nat) (m : Machine)
    (e : EvHandle) (rest : List EvHandle) (d : Nat)
    (hq : m.event_queue = e :: rest)
    (hd : d < m.state_stack.length)
    (hend : ∀ j (hj : j < m.state_stack.length), j < d →
      Dispatch prog (m.state_stack.get ⟨j, hj⟩).id e.kind = none)
    (hfuel : d + 2 ≤ fuel) :
    ((consultsFor m.state_stack 0 (d + 1)).map consultDepth =
      List.range' 0 (d + 1)) ∧
    (∀ a, Dispatch prog (m.state_stack.get ⟨d, hd⟩).id e.kind = some a →
      a = Action.finishA ∨ a = Action.discardA →
      ProcessQueueEvent prog cfg fuel m =
        .ok { m with trace := m.trace ++ TraceEv.dispatchEv e ::
              consultsFor m.state_stack 0 (d + 1) }) ∧
    (Dispatch prog (m.state_stack.get ⟨d, hd⟩).id e.kind = some Action.deferA →
      ProcessQueueEvent prog cfg fuel m =
        .ok { m with
              deferred_queue := m.deferred_queue ++ [e]
              trace := m.trace ++ TraceEv.dispatchEv e ::
                consultsFor m.state_stack 0 (d + 1) }) ∧
    (∀ tg, Dispatch prog (m.state_stack.get ⟨d, hd⟩).id e.kind =
        some (Action.transitA tg) →
      ProcessQueueEvent prog cfg fuel m =
        (match PopStateAtDepth
            { m with trace := m.trace ++ TraceEv.dispatchEv e ::
                consultsFor m.state_stack 0 (d + 1) } d with
         | .error err => .error err
         | .ok m3 =>
           match PushState prog (fuel - (d + 2)) m3 ⟨tg, d⟩ with
           | .error err => .error err
           | .ok m4 => ProcessDeferredEvent prog cfg (fuel - (d + 2)) m4)) := by
  have h0 := ProcessQueueEvent_scan prog cfg fuel m e rest d hq
    (Nat.le_of_lt hd) hend hfuel
  obtain ⟨G, hG⟩ : ∃ G, fuel - 1 - d = G + 1 := ⟨fuel - d - 2, by omega⟩
  rw [hG] at h0
  have hsnoc := consultsFor_snoc m.state_stack d 0 (by omega)
  simp only [Nat.zero_add] at hsnoc
  refine ⟨consultsFor_map_depth m.state_stack (d + 1) 0 (by omega), ?_, ?_, ?_⟩
  · rintro a hDa (rfl | rfl)
    · rw [h0, pqeLoop_step_finish prog cfg G
        { m with trace := (m.trace ++ [TraceEv.dispatchEv e]) ++
            consultsFor m.state_stack 0 d }
        e d hd hDa]
      dsimp only
      rw [← hsnoc]
      simp [List.append_assoc]
    · rw [h0, pqeLoop_step_discard prog cfg G
        { m with trace := (m.trace ++ [TraceEv.dispatchEv e]) ++
            consultsFor m.state_stack 0 d }
        e d hd hDa]
      dsimp only
      rw [← hsnoc]
      simp [List.append_assoc]
  · intro hDa
    rw [h0, pqeLoop_step_defer prog cfg G
      { m with trace := (m.trace ++ [TraceEv.dispatchEv e]) ++
          consultsFor m.state_stack 0 d }
      e d hd hDa e rest hq]
    dsimp only
    rw [← hsnoc]
    simp [List.append_assoc]
  · intro tg hDa
    rw [h0, pqeLoop_step_transit prog cfg G
      { m with trace := (m.trace ++ [TraceEv.dispatchEv e]) ++
          consultsFor m.state_stack 0 d }
      e d hd tg hDa]
    have hMeq : ({ m with trace := ((m.trace ++ [TraceEv.dispatchEv e]) ++
          consultsFor m.state_stack 0 d) ++
          [TraceEv.consult d (m.state_stack.get ⟨d, hd⟩).id] } : Machine) =
        { m with trace := m.trace ++ TraceEv.dispatchEv e ::
            consultsFor m.state_stack 0 (d + 1) } := by
      rw [← hsnoc]
      simp [List.append_assoc]
    have hGf : G = fuel - (d + 2) := by omega
    dsimp only
    rw [hMeq, hGf]

/-- C8: when every depth from root to leaf returns `NotHandled`, the engine
consults every depth, logs the unknown-event diagnostic, and aborts exactly
when the abort-on-unknown-event option is enabled; otherwise the dispatch
returns with the machine unchanged apart from the log (the event is then
silently consumed by the caller's queue pop). -/
theorem c8_unknown_event (prog : Prog) (cfg : Cfg) (fuel : Nat) (m : Machine)
    (e : EvHandle) (rest : List EvHandle)
    (hq : m.event_queue = e :: rest)
    (hall : ∀ j (hj : j < m.state_stack.length),
      Dispatch prog (m.state_stack.get ⟨j, hj⟩).id e.kind = none)
    (hfuel : m.state_stack.length + 2 ≤ fuel) :
    (cfg.abortOnUnknownEvent = true →
      ProcessQueueEvent prog cfg fuel m = .error .abortUnknown) ∧
    (cfg.abortOnUnknownEvent = false →
      ProcessQueueEvent prog cfg fuel m =
        .ok { m with trace := m.trace ++ TraceEv.dispatchEv e ::
              (consultsFor m.state_stack 0 m.state_stack.length ++
                [TraceEv.unknownEvent]) }) := by
  have h0 := ProcessQueueEvent_scan prog cfg fuel m e rest
    m.state_stack.length hq (Nat.le_refl _) (fun j hj _ => hall j hj)
    (by omega)
  obtain ⟨G, hG⟩ : ∃ G, fuel - 1 - m.state_stack.length = G + 1 :=
    ⟨fuel - m.state_stack.length - 2, by omega⟩
  rw [hG] at h0
  rw [h0, pqeLoop_step_unknown prog cfg G
    { m with trace := (m.trace ++ [TraceEv.dispatchEv e]) ++
        consultsFor m.state_stack 0 m.state_stack.length }
    e m.state_stack.length
    (show ¬ m.state_stack.length < m.state_stack.length by omega)]
  constructor
  · intro hc
    rw [hc]
    simp
  · intro hc
    rw [hc]
    dsimp only
    simp [List.append_assoc]


theorem initChain_head :
    ∀ (prog : Prog) (n : Nat) (sid : StateId) (c : List StateId),
      initChain prog n sid = some c → c.head? = some sid
  | prog, 0, sid, c, h => by simp [initChain] at h
  | prog, n + 1, sid, c, h => by
    simp only [initChain] at h
    by_cases hself : (prog sid).initTarget = sid
    · rw [if_pos hself] at h
      obtain rfl : [sid] = c := by simpa using h
      rfl
    · rw [if_neg hself] at h
      cases hh : initChain prog n (prog sid).initTarget with
      | none =>
        rw [hh] at h
        simp at h
      | some c' =>
        rw [hh] at h
        obtain rfl : sid :: c' = c := by simpa using h
        rfl

theorem initChain_last :
    ∀ (prog : Prog) (n : Nat) (sid : StateId) (c : List StateId),
      initChain prog n sid = some c →
      ∃ z, c.getLast? = some z ∧ (prog z).initTarget = z
  | prog, 0, sid, c, h => by simp [initChain] at h
  | prog, n + 1, sid, c, h => by
    simp only [initChain] at h
    by_cases hself : (prog sid).initTarget = sid
    · rw [if_pos hself] at h
      obtain rfl : [sid] = c := by simpa using h
      exact ⟨sid, rfl, hself⟩
    · rw [if_neg hself] at h
      cases hh : initChain prog n (prog sid).initTarget with
      | none =>
        rw [hh] at h
        simp at h
      | some c' =>
        rw [hh] at h
        obtain rfl : sid :: c' = c := by simpa using h
        obtain ⟨z, hz1, hz2⟩ := initChain_last prog n (prog sid).initTarget c' hh
        have hhd := initChain_head prog n (prog sid).initTarget c' hh
        cases c' with
        | nil => simp at hhd
        | cons x t => exact ⟨z, by rw [List.getLast?_cons_cons]; exact hz1, hz2⟩

theorem initChain_self_eq (prog : Prog) :
    ∀ (n : Nat) (sid : StateId) (c : List StateId),
      (prog sid).initTarget = sid → initChain prog n sid = some c → c = [sid]
  | 0, sid, c, _, h => by simp [initChain] at h
  | n + 1, sid, c, hself, h => by
    simp only [initChain, if_pos hself] at h
    simpa using h.symm

/-- C6: pushing a state runs its `on_enter` and then immediately creates,
pushes and enters its declared initial substate, recursing until a state
with no further initial substate is reached, all before the outer push
returns: the stack gains exactly the instances of the `initChain` of the
pushed state and the entry log is that chain in order.  A state whose
declared initial substate equals itself reports `HasInitializeState =
false` and the cascade stops with only that state pushed.  The chain starts
at the pushed state and its final state's initial substate is itself. -/
theorem c6_push_cascade (prog : Prog) (n fuel : Nat) (m : Machine)
    (sid : StateId) (dep : Nat) (c : List StateId)
    (hc : initChain prog n sid = some c) (hf : 2 * n ≤ fuel) :
    PushState prog fuel m ⟨sid, dep⟩ =
      .ok { m with
            state_stack := m.state_stack ++ chainInstances c dep
            trace := m.trace ++ chainEnters c m.state_stack.length } ∧
    ((prog sid).initTarget = sid →
      HasInitializeState prog sid = false ∧ c = [sid]) ∧
    c.head? = some sid ∧
    (∃ z, c.getLast? = some z ∧ (prog z).initTarget = z) := by
  refine ⟨PushState_chain prog n fuel m sid dep c hc hf, ?_, ?_, ?_⟩
  · intro hself
    exact ⟨by simp [HasInitializeState, hself],
      initChain_self_eq prog n sid c hself hc⟩
  · exact initChain_head prog n sid c hc
  · exact initChain_last prog n sid c hc

/-- C6 witness: pushing state `0` of the example program (initial substate
`1`, which has none) onto the empty machine enters `0` then `1` before
returning. -/
theorem c6_push_cascade_witness :
    initChain progW 2 0 = some [0, 1] ∧
    PushState progW 4 initMachine ⟨0, 0⟩ =
      .ok { initMachine with
            state_stack := initMachine.state_stack ++ chainInstances [0, 1] 0
            trace := initMachine.trace ++
              chainEnters [0, 1] initMachine.state_stack.length } := by
  exact ⟨by decide,
    (c6_push_cascade progW 2 4 initMachine 0 0 [0, 1] (by decide)
      (by decide)).1⟩

/-- C9: `initialize` fails the `hsm_assert` when the machine was already
initialised (its initial transition is no longer `No`) or when the state
stack is non-empty; a successful call records the owner and the initial
transition and creates and pushes the root state, cascading into its
declared initial substates, after which any second call fails the
assertion. -/
theorem c9_initialize_once (prog : Prog) (fuel : Nat) (m : Machine)
    (root : StateId) (owner : Option Nat) (n : Nat) (c : List StateId) :
    (m.initial_transition.IsNo = false →
      Initialize prog fuel m root owner = .error .assertFail) ∧
    (m.state_stack ≠ [] →
      Initialize prog fuel m root owner = .error .assertFail) ∧
    (m.initial_transition.IsNo = true → m.state_stack = [] →
      initChain prog n root = some c → 2 * n + 1 ≤ fuel →
      Initialize prog fuel m root owner =
        .ok { m with
              initial_transition := SiblingTransition root
              owner := owner
              state_stack := chainInstances c 0
              trace := m.trace ++ chainEnters c 0 } ∧
      (∀ (fuel2 : Nat) (root2 : StateId) (o2 : Option Nat),
        Initialize prog fuel2
          { m with
            initial_transition := SiblingTransition root
            owner := owner
            state_stack := chainInstances c 0
            trace := m.trace ++ chainEnters c 0 }
          root2 o2 = .error .assertFail)) := by
  refine ⟨?_, ?_, ?_⟩
  · intro h
    simp [Initialize, h]
  · intro h
    by_cases hno : m.initial_transition.IsNo
    · rw [Initialize, if_pos hno, if_neg (by simpa using h)]
    · rw [Initialize, if_neg hno]
  · intro hno hs hc hf
    constructor
    · obtain ⟨f, rfl⟩ : ∃ f, fuel = f + 1 := ⟨fuel - 1, by omega⟩
      rw [Initialize, if_pos (by simp [hno]), if_pos (by simp [hs])]
      simp only [CreateAndPushInitialState, SiblingTransition, CreateState]
      rw [PushState_chain prog n f _ root 0 c hc (by omega)]
      dsimp only
      rw [hs]
      simp [chainEnters]
    · intro fuel2 root2 o2
      rw [Initialize,
        if_neg (by simp [Transition.IsNo, SiblingTransition])]

/-- C9 witness: a fresh machine initialises at root `0` of the example
program (stack becomes the chain `[0, 1]`, owner recorded), and a second
`initialize` on the result fails the assertion. -/
theorem c9_initialize_once_witness :
    initMachine.initial_transition.IsNo = true ∧
    Initialize progW 10 initMachine 0 (some 7) =
      .ok { initMachine with
            initial_transition := SiblingTransition 0
            owner := some 7
            state_stack := chainInstances [0, 1] 0
            trace := initMachine.trace ++ chainEnters [0, 1] 0 } ∧
    Initialize progW 10
      { initMachine with
        initial_transition := SiblingTransition 0
        owner := some 7
        state_stack := chainInstances [0, 1] 0
        trace := initMachine.trace ++ chainEnters [0, 1] 0 }
      0 (some 7) = .error .assertFail := by
  have h := (c9_initialize_once progW 10 initMachine 0 (some 7) 2 [0, 1]).2.2
    (by decide) (by decide) (by decide) (by decide)
  exact ⟨by decide, h.1, h.2 10 0 (some 7)⟩


theorem ProcessDeferredEvent_nil (prog : Prog) (cfg : Cfg) (fuel : Nat)
    (m : Machine) (h : m.deferred_queue = []) (hf : 2 ≤ fuel) :
    ProcessDeferredEvent prog cfg fuel m = .ok m := by
  obtain ⟨f, rfl⟩ : ∃ f, fuel = f + 1 + 1 := ⟨fuel - 2, by omega⟩
  simp [ProcessDeferredEvent, pdeLoop, h]

/-- C5: popping `N` states — by `stop` or by a `Sibling` transition at
depth `d` — invokes `on_exit` leaf first: the exit log of
`PopStateAtDepth` records strictly decreasing stack indices
`len-1, …, d`, exactly one exit per popped instance (their identities are
the dropped suffix, leaf first), and only the prefix below `d` survives.  A
`Sibling` answer at depth `d` then pushes a newly created chain starting at
depth `d` with the target, cascading into declared initial substates. -/
theorem c5_leaf_first_teardown (prog : Prog) (cfg : Cfg) (fuel : Nat)
    (m : Machine) (e : EvHandle) (rest : List EvHandle) (d : Nat)
    (tg : StateId) (n : Nat) (c : List StateId)
    (hd : d < m.state_stack.length) :
    (PopStateAtDepth m d =
      .ok { m with
            state_stack := m.state_stack.take d
            trace := m.trace ++
              exitsDownTo m.state_stack (m.state_stack.length - d) }) ∧
    ((exitsDownTo m.state_stack (m.state_stack.length - d)).map exitIdx =
      ((List.range m.state_stack.length).drop d).reverse) ∧
    ((exitsDownTo m.state_stack (m.state_stack.length - d)).map exitSid =
      ((m.state_stack.drop d).map StateInstance.id).reverse) ∧
    (m.event_queue = e :: rest →
     m.deferred_queue = [] →
     (∀ j (hj : j < m.state_stack.length), j < d →
       Dispatch prog (m.state_stack.get ⟨j, hj⟩).id e.kind = none) →
     Dispatch prog (m.state_stack.get ⟨d, hd⟩).id e.kind =
       some (Action.transitA tg) →
     initChain prog n tg = some c →
     d + 2 * n + 4 ≤ fuel →
     ProcessQueueEvent prog cfg fuel m =
       .ok { m with
             state_stack := m.state_stack.take d ++ chainInstances c d
             trace := m.trace ++ TraceEv.dispatchEv e ::
               (consultsFor m.state_stack 0 (d + 1) ++
                 (exitsDownTo m.state_stack (m.state_stack.length - d) ++
                   chainEnters c d)) }) := by
  refine ⟨PopStateAtDepth_spec m d hd, ?_, ?_, ?_⟩
  · have h := exitsDownTo_map_exitIdx m.state_stack
      (m.state_stack.length - d) (by omega)
    rwa [show m.state_stack.length - (m.state_stack.length - d) = d by omega]
      at h
  · have h := exitsDownTo_map_exitSid m.state_stack
      (m.state_stack.length - d) (by omega)
    rwa [show m.state_stack.length - (m.state_stack.length - d) = d by omega]
      at h
  · intro hq hdq hend hDa hc hf
    have h0 := ProcessQueueEvent_scan prog cfg fuel m e rest d hq
      (Nat.le_of_lt hd) hend (by omega)
    obtain ⟨G, hG⟩ : ∃ G, fuel - 1 - d = G + 1 := ⟨fuel - d - 2, by omega⟩
    rw [hG] at h0
    have hsnoc := consultsFor_snoc m.state_stack d 0 (by omega)
    simp only [Nat.zero_add] at hsnoc
    rw [h0, pqeLoop_step_transit prog cfg G
      { m with trace := (m.trace ++ [TraceEv.dispatchEv e]) ++
          consultsFor m.state_stack 0 d }
      e d hd tg hDa]
    dsimp only
    rw [PopStateAtDepth_spec
      { m with trace := ((m.trace ++ [TraceEv.dispatchEv e]) ++
          consultsFor m.state_stack 0 d) ++
          [TraceEv.consult d (m.state_stack.get ⟨d, hd⟩).id] }
      d hd]
    dsimp only
    rw [PushState_chain prog n G
      { m with
        state_stack := m.state_stack.take d
        trace := (((m.trace ++ [TraceEv.dispatchEv e]) ++
          consultsFor m.state_stack 0 d) ++
          [TraceEv.consult d (m.state_stack.get ⟨d, hd⟩).id]) ++
          exitsDownTo m.state_stack (m.state_stack.length - d) }
      tg d c hc (by omega)]
    dsimp only
    rw [ProcessDeferredEvent_nil prog cfg G _ (by simpa using hdq) (by omega)]
    rw [show (List.take d m.state_stack).length = d by
      simp [List.length_take]; omega]
    rw [← hsnoc]
    simp [List.append_assoc]

/-- C5 witness: in the example program with stack `[0, 1]`, dispatching
kind `20` transitions at depth `1`: state `1` exits at index `1`, the chain
`[2]` is pushed at depth `1`, and the root is untouched. -/
theorem c5_leaf_first_teardown_witness :
    (1 < ([⟨0, 0⟩, ⟨1, 0⟩] : List StateInstance).length) ∧
    ProcessQueueEvent progW cfgQuiet 20
      { initMachine with
        state_stack := [⟨0, 0⟩, ⟨1, 0⟩]
        event_queue := [⟨20, 5⟩] } =
      .ok { initMachine with
            state_stack := [⟨0, 0⟩, ⟨1, 0⟩].take 1 ++ chainInstances [2] 1
            event_queue := [⟨20, 5⟩]
            trace := TraceEv.dispatchEv ⟨20, 5⟩ ::
              (consultsFor [⟨0, 0⟩, ⟨1, 0⟩] 0 2 ++
                (exitsDownTo [⟨0, 0⟩, ⟨1, 0⟩] 1 ++ chainEnters [2] 1)) } := by
  have h := (c5_leaf_first_teardown progW cfgQuiet 20
    { initMachine with
      state_stack := [⟨0, 0⟩, ⟨1, 0⟩]
      event_queue := [⟨20, 5⟩] }
    ⟨20, 5⟩ [] 1 2 1 [2] (by decide)).2.2.2 rfl rfl
    (by decide) (by decide) (by decide) (by decide)
  exact ⟨by decide, h⟩


theorem dispatchesOf_append :
    ∀ (xs ys : List TraceEv),
      dispatchesOf (xs ++ ys) = dispatchesOf xs ++ dispatchesOf ys
  | [], ys => rfl
  | x :: xs, ys => by
    cases x <;> simp [dispatchesOf, dispatchesOf_append xs ys]

theorem pqeLoop_noTransit_out (prog : Prog) (cfg : Cfg) (e : EvHandle)
    (hflag : cfg.abortOnUnknownEvent = false) (fuel depth : Nat) (m : Machine)
    (h : ¬ depth < m.state_stack.length) (hfp : 0 < fuel) :
    pqeLoop prog cfg fuel m e depth =
      .ok { m with trace := m.trace ++ [TraceEv.unknownEvent] } := by
  obtain ⟨F, rfl⟩ : ∃ F, fuel = F + 1 := ⟨fuel - 1, by omega⟩
  rw [pqeLoop_step_unknown prog cfg F m e depth h, hflag]
  simp

theorem pqeLoop_noTransit (prog : Prog) (cfg : Cfg) (e : EvHandle)
    (hflag : cfg.abortOnUnknownEvent = false) :
    ∀ (k fuel depth : Nat) (m : Machine) (S : List StateInstance),
      m.state_stack = S →
      S.length ≤ depth + k →
      m.event_queue ≠ [] →
      (∀ j (hj : j < S.length), depth ≤ j →
        isTransitOpt (Dispatch prog (S.get ⟨j, hj⟩).id e.kind) = false) →
      k < fuel →
      ∃ m' app,
        pqeLoop prog cfg fuel m e depth = .ok m' ∧
        m'.state_stack = S ∧
        m'.event_queue = m.event_queue ∧
        m'.deferred_queue = m.deferred_queue ++ app ∧
        m'.next_clone = m.next_clone ∧
        dispatchesOf m'.trace = dispatchesOf m.trace ∧
        (app = [] ∨ ∃ e2 tl, m.event_queue = e2 :: tl ∧ app = [e2] ∧
          ∃ (j : Nat) (hj : j < S.length),
            Dispatch prog (S.get ⟨j, hj⟩).id e.kind = some Action.deferA)
  | 0, fuel, depth, m, S, hS, hlen, hq, hnt, hf => by
    subst hS
    have hout : ¬ depth < m.state_stack.length := by omega
    rw [pqeLoop_noTransit_out prog cfg e hflag fuel depth m hout (by omega)]
    refine ⟨_, [], rfl, rfl, rfl, by simp, rfl, ?_, Or.inl rfl⟩
    simp [dispatchesOf_append, dispatchesOf]
  | k + 1, fuel, depth, m, S, hS, hlen, hq, hnt, hf => by
    subst hS
    by_cases hdl : depth < m.state_stack.length
    · obtain ⟨F, rfl⟩ : ∃ F, fuel = F + 1 := ⟨fuel - 1, by omega⟩
      cases hD : Dispatch prog (m.state_stack.get ⟨depth, hdl⟩).id e.kind with
      | none =>
        rw [pqeLoop_step_end prog cfg F m e depth hdl hD]
        obtain ⟨m', app, hrun, hst, hev, hdf, hnc, hdi, happ⟩ :=
          pqeLoop_noTransit prog cfg e hflag k F (depth + 1)
            { m with trace := m.trace ++
                [TraceEv.consult depth (m.state_stack.get ⟨depth, hdl⟩).id] }
            m.state_stack rfl (by omega) hq
            (fun j hj hge => hnt j hj (by omega)) (by omega)
        refine ⟨m', app, hrun, hst, hev, hdf, hnc, ?_, happ⟩
        rw [hdi, dispatchesOf_append]
        simp [dispatchesOf]
      | some a =>
        cases a with
        | finishA =>
          rw [pqeLoop_step_finish prog cfg F m e depth hdl hD]
          refine ⟨_, [], rfl, rfl, rfl, by simp, rfl, ?_, Or.inl rfl⟩
          simp [dispatchesOf_append, dispatchesOf]
        | discardA =>
          rw [pqeLoop_step_discard prog cfg F m e depth hdl hD]
          refine ⟨_, [], rfl, rfl, rfl, by simp, rfl, ?_, Or.inl rfl⟩
          simp [dispatchesOf_append, dispatchesOf]
        | transitA tg =>
          have hc := hnt depth hdl (Nat.le_refl _)
          rw [hD] at hc
          simp [isTransitOpt] at hc
        | deferA =>
          obtain ⟨e2, tl, hq2⟩ : ∃ e2 tl, m.event_queue = e2 :: tl := by
            cases hqq : m.event_queue with
            | nil => exact absurd hqq hq
            | cons x t => exact ⟨x, t, rfl⟩
          rw [pqeLoop_step_defer prog cfg F m e depth hdl hD e2 tl hq2]
          refine ⟨_, [e2], rfl, rfl, rfl, rfl, rfl, ?_,
            Or.inr ⟨e2, tl, hq2, rfl, depth, hdl, hD⟩⟩
          simp [dispatchesOf_append, dispatchesOf]
    · rw [pqeLoop_noTransit_out prog cfg e hflag fuel depth m hdl (by omega)]
      refine ⟨_, [], rfl, rfl, rfl, by simp, rfl, ?_, Or.inl rfl⟩
      simp [dispatchesOf_append, dispatchesOf]

theorem ProcessQueueEvent_noTransit (prog : Prog) (cfg : Cfg)
    (hflag : cfg.abortOnUnknownEvent = false) (fuel : Nat) (m : Machine)
    (e2 : EvHandle) (tl : List EvHandle)
    (hq : m.event_queue = e2 :: tl)
    (hnt : ∀ j (hj : j < m.state_stack.length),
      isTransitOpt (Dispatch prog (m.state_stack.get ⟨j, hj⟩).id e2.kind) =
        false)
    (hfuel : m.state_stack.length + 2 ≤ fuel) :
    ∃ m' app,
      ProcessQueueEvent prog cfg fuel m = .ok m' ∧
      m'.state_stack = m.state_stack ∧
      m'.event_queue = m.event_queue ∧
      m'.deferred_queue = m.deferred_queue ++ app ∧
      m'.next_clone = m.next_clone ∧
      dispatchesOf m'.trace = dispatchesOf m.trace ++ [e2] ∧
      (app = [] ∨ (app = [e2] ∧ ∃ (j : Nat) (hj : j < m.state_stack.length),
        Dispatch prog (m.state_stack.get ⟨j, hj⟩).id e2.kind =
          some Action.deferA)) := by
  obtain ⟨F, rfl⟩ : ∃ F, fuel = F + 1 := ⟨fuel - 1, by omega⟩
  rw [ProcessQueueEvent_front prog cfg F m e2 tl hq]
  obtain ⟨m', app, hrun, hst, hev, hdf, hnc, hdi, happ⟩ :=
    pqeLoop_noTransit prog cfg e2 hflag m.state_stack.length F 0
      { m with trace := m.trace ++ [TraceEv.dispatchEv e2] }
      m.state_stack rfl (by omega) (by simp [hq]) (fun j hj _ => hnt j hj)
      (by omega)
  refine ⟨m', app, hrun, hst, hev, hdf, hnc, ?_, ?_⟩
  · rw [hdi, dispatchesOf_append]
    simp [dispatchesOf]
  · rcases happ with h | ⟨e2x, tlx, hq2, happ2, j, hj, hDj⟩
    · exact Or.inl h
    · have hq2m : m.event_queue = e2x :: tlx := hq2
      rw [hq] at hq2m
      injection hq2m with hh1 hh2
      subst hh1
      exact Or.inr ⟨happ2, j, hj, hDj⟩


theorem pdeLoop_step (prog : Prog) (cfg : Cfg) (F : Nat) (m : Machine)
    (i : Nat) (e : EvHandle) (dt : List EvHandle)
    (hdq : m.deferred_queue = e :: dt) :
    pdeLoop prog cfg (F + 1) m (i + 1) =
      (match ProcessQueueEvent prog cfg F
          { m with event_queue := e :: m.event_queue } with
       | .error err => .error err
       | .ok m2 =>
         match m2.deferred_queue with
         | [] => .error .emptyQueue
         | _ :: dtail =>
           match m2.event_queue with
           | [] => .error .emptyQueue
           | _ :: etail =>
             pdeLoop prog cfg F
               { m2 with deferred_queue := dtail, event_queue := etail } i) := by
  simp only [pdeLoop, hdq]

theorem pdeLoop_noTransit (prog : Prog) (cfg : Cfg)
    (hflag : cfg.abortOnUnknownEvent = false) :
    ∀ (i fuel : Nat) (m : Machine) (S : List StateInstance)
      (dfr ext : List EvHandle),
      m.state_stack = S →
      m.deferred_queue = dfr ++ ext →
      dfr.length = i →
      (∀ h ∈ dfr ++ ext, ∀ (j : Nat) (hj : j < S.length),
        isTransitOpt (Dispatch prog (S.get ⟨j, hj⟩).id h.kind) = false) →
      i + S.length + 3 ≤ fuel →
      ∃ m' ext2,
        pdeLoop prog cfg fuel m i = .ok m' ∧
        m'.state_stack = S ∧
        m'.event_queue = m.event_queue ∧
        m'.deferred_queue = ext ++ ext2 ∧
        m'.next_clone = m.next_clone ∧
        dispatchesOf m'.trace = dispatchesOf m.trace ++ dfr ∧
        (∀ h ∈ ext2, h ∈ dfr ++ ext ∧ ∃ (j : Nat) (hj : j < S.length),
          Dispatch prog (S.get ⟨j, hj⟩).id h.kind = some Action.deferA)
  | 0, fuel, m, S, dfr, ext, hS, hdq, hlen, hφ, hf => by
    subst hS
    obtain rfl : dfr = [] := List.length_eq_zero.mp hlen
    obtain ⟨F, rfl⟩ : ∃ F, fuel = F + 1 := ⟨fuel - 1, by omega⟩
    refine ⟨m, [], by simp [pdeLoop], rfl, rfl, by simpa using hdq, rfl,
      by simp, ?_⟩
    intro h hm
    simp at hm
  | i + 1, fuel, m, S, dfr, ext, hS, hdq, hlen, hφ, hf => by
    subst hS
    obtain ⟨e, dfr', rfl⟩ : ∃ e dfr', dfr = e :: dfr' := by
      cases dfr with
      | nil => simp at hlen
      | cons x t => exact ⟨x, t, rfl⟩
    obtain ⟨F, rfl⟩ : ∃ F, fuel = F + 1 := ⟨fuel - 1, by omega⟩
    have hdq1 : m.deferred_queue = e :: (dfr' ++ ext) := by
      rw [hdq]
      simp
    rw [pdeLoop_step prog cfg F m i e (dfr' ++ ext) hdq1]
    obtain ⟨m2, app, hrun, hst, hev, hdf, hnc, hdi, happ⟩ :=
      ProcessQueueEvent_noTransit prog cfg hflag F
        { m with event_queue := e :: m.event_queue } e m.event_queue rfl
        (fun j hj => hφ e (by simp) j hj)
        (by
          show m.state_stack.length + 2 ≤ F
          omega)
    rw [hrun]
    dsimp only
    have hdf2 : m2.deferred_queue = e :: (dfr' ++ (ext ++ app)) := by
      rw [hdf]
      show m.deferred_queue ++ app = _
      rw [hdq1]
      simp [List.append_assoc]
    have hev2 : m2.event_queue = e :: m.event_queue := hev
    rw [hdf2, hev2]
    dsimp only
    have happ_sub : ∀ h ∈ app, h = e := by
      intro h hm
      rcases happ with rfl | ⟨rfl, _⟩
      · simp at hm
      · simpa using hm
    obtain ⟨m', ext2, hrun', hst', hev', hdf', hnc', hdi', hmem'⟩ :=
      pdeLoop_noTransit prog cfg hflag i F
        { m2 with deferred_queue := dfr' ++ (ext ++ app),
                  event_queue := m.event_queue }
        m.state_stack dfr' (ext ++ app) hst rfl (by simpa using hlen)
        (by
          intro h hm j hj
          simp only [List.mem_append] at hm
          rcases hm with hm | hm | hm
          · exact hφ h (by simp [hm]) j hj
          · exact hφ h (by simp [hm]) j hj
          · rw [happ_sub h hm]
            exact hφ e (by simp) j hj)
        (by omega)
    refine ⟨m', app ++ ext2, hrun', hst', ?_, ?_, ?_, ?_, ?_⟩
    · exact hev'
    · rw [hdf']
      simp [List.append_assoc]
    · rw [hnc']
      exact hnc
    · rw [hdi']
      show dispatchesOf m2.trace ++ dfr' = _
      rw [hdi]
      show dispatchesOf m.trace ++ [e] ++ dfr' = _
      simp
    · intro h hm
      simp only [List.mem_append] at hm
      rcases hm with hm | hm
      · rw [happ_sub h hm]
        refine ⟨by simp, ?_⟩
        rcases happ with rfl | ⟨_, j, hj, hDj⟩
        · simp at hm
        · exact ⟨j, hj, hDj⟩
      · obtain ⟨hmem, j, hj, hDj⟩ := hmem' h hm
        refine ⟨?_, j, hj, hDj⟩
        simp only [List.mem_append] at hmem
        rcases hmem with hm2 | hm2 | hm2
        · simp [hm2]
        · simp [hm2]
        · rw [happ_sub h hm2]
          simp

theorem ProcessDeferredEvent_noTransit (prog : Prog) (cfg : Cfg)
    (hflag : cfg.abortOnUnknownEvent = false) (fuel : Nat) (m : Machine)
    (hnt : ∀ h ∈ m.deferred_queue, ∀ (j : Nat)
      (hj : j < m.state_stack.length),
      isTransitOpt (Dispatch prog (m.state_stack.get ⟨j, hj⟩).id h.kind) =
        false)
    (hfuel : m.deferred_queue.length + m.state_stack.length + 4 ≤ fuel) :
    ∃ m' ext2,
      ProcessDeferredEvent prog cfg fuel m = .ok m' ∧
      m'.state_stack = m.state_stack ∧
      m'.event_queue = m.event_queue ∧
      m'.deferred_queue = ext2 ∧
      m'.next_clone = m.next_clone ∧
      dispatchesOf m'.trace = dispatchesOf m.trace ++ m.deferred_queue ∧
      (∀ h ∈ ext2, h ∈ m.deferred_queue ∧
        ∃ (j : Nat) (hj : j < m.state_stack.length),
          Dispatch prog (m.state_stack.get ⟨j, hj⟩).id h.kind =
            some Action.deferA) := by
  obtain ⟨F, rfl⟩ : ∃ F, fuel = F + 1 := ⟨fuel - 1, by omega⟩
  simp only [ProcessDeferredEvent]
  obtain ⟨m', ext2, hrun, hst, hev, hdf, hnc, hdi, hmem⟩ :=
    pdeLoop_noTransit prog cfg hflag m.deferred_queue.length F m
      m.state_stack m.deferred_queue [] rfl (by simp) rfl
      (by simpa using hnt) (by omega)
  exact ⟨m', ext2, hrun, hst, hev, by simpa using hdf, hnc, hdi,
    by simpa using hmem⟩


theorem calmOpt_isTransitOpt (x : Option Action) (h : calmOpt x = true) :
    isTransitOpt x = false := by
  cases x with
  | none => rfl
  | some a =>
    cases a with
    | finishA => rfl
    | discardA => rfl
    | transitA tg => simp [calmOpt] at h
    | deferA => simp [calmOpt] at h

theorem chainInstances_length (c : List StateId) (dep : Nat) :
    (chainInstances c dep).length = c.length := by
  cases c <;> simp [chainInstances]

theorem dispatchesOf_consultsFor :
    ∀ (s : List StateInstance) (k depth : Nat),
      dispatchesOf (consultsFor s depth k) = []
  | _, 0, _ => rfl
  | s, k + 1, depth => by
    cases hget : s[depth]? with
    | none => simp [consultsFor, hget, dispatchesOf]
    | some inst =>
      simp [consultsFor, hget, dispatchesOf,
        dispatchesOf_consultsFor s k (depth + 1)]

theorem dispatchesOf_exitsDownTo :
    ∀ (s : List StateInstance) (k : Nat),
      dispatchesOf (exitsDownTo s k) = []
  | _, 0 => rfl
  | s, k + 1 => by
    cases hlast : s.getLast? with
    | none => simp [exitsDownTo, hlast, dispatchesOf]
    | some inst =>
      simp [exitsDownTo, hlast, dispatchesOf,
        dispatchesOf_exitsDownTo s.dropLast k]

theorem dispatchesOf_chainEnters :
    ∀ (c : List StateId) (base : Nat),
      dispatchesOf (chainEnters c base) = []
  | [], _ => rfl
  | sid :: c, base => by
    simp [chainEnters, dispatchesOf, dispatchesOf_chainEnters c (base + 1)]

/-- C2 (amended): the deferred-event replay is bounded and returns provided
no replayed event's dispatch triggers a further transition (and the
unknown-event abort is off): `ProcessDeferredEvent` then succeeds, takes up
for dispatch exactly the events accumulated in the deferred queue, once
each and in order — each iteration removing the replayed front entry — and
leaves the state stack and event queue unchanged.  Without that proviso the
replay can re-dispatch a deferred event through the nested replay and
underflow the deferred queue, as the counterexample shows. -/
theorem c2_bounded_replay_when_transition_free (prog : Prog) (cfg : Cfg)
    (fuel : Nat) (m : Machine)
    (hflag : cfg.abortOnUnknownEvent = false)
    (hnt : ∀ h ∈ m.deferred_queue, ∀ (j : Nat)
      (hj : j < m.state_stack.length),
      isTransitOpt (Dispatch prog (m.state_stack.get ⟨j, hj⟩).id h.kind) =
        false)
    (hfuel : m.deferred_queue.length + m.state_stack.length + 4 ≤ fuel) :
    ∃ m',
      ProcessDeferredEvent prog cfg fuel m = .ok m' ∧
      dispatchesOf m'.trace = dispatchesOf m.trace ++ m.deferred_queue ∧
      m'.state_stack = m.state_stack ∧
      m'.event_queue = m.event_queue := by
  obtain ⟨m', ext2, h1, h2, h3, h4, h5, h6, h7⟩ :=
    ProcessDeferredEvent_noTransit prog cfg hflag fuel m hnt hfuel
  exact ⟨m', h1, h6, h2, h3⟩

/-- C2 witness: one deferred event of kind `30` with the single state `2`
on the stack (its handler finishes); the replay dispatches it exactly once
and returns. -/
theorem c2_bounded_replay_witness :
    isTransitOpt (Dispatch progW 2 30) = false ∧
    ∃ m',
      ProcessDeferredEvent progW cfgQuiet 10
        { initMachine with
          state_stack := [⟨2, 0⟩]
          event_queue := [⟨20, 4⟩]
          deferred_queue := [⟨30, 9⟩] } = .ok m' ∧
      dispatchesOf m'.trace = [⟨30, 9⟩] ∧
      m'.state_stack = [⟨2, 0⟩] ∧
      m'.event_queue = [⟨20, 4⟩] := by
  have h := c2_bounded_replay_when_transition_free progW cfgQuiet 10
    { initMachine with
      state_stack := [⟨2, 0⟩]
      event_queue := [⟨20, 4⟩]
      deferred_queue := [⟨30, 9⟩] }
    rfl (by decide) (by decide)
  exact ⟨by decide, h⟩

/-- C3 (amended): if events `A` then `B` are pending in the deferred queue
(in that order) when an event `E`'s dispatch produces a `Sibling`
transition at depth `d` — a defer ends its own dispatch pass with
`NoChange`, so the deferral necessarily happened during earlier dispatches
— then immediately after the transition is executed the engine replays
exactly `A` then `B`, in FIFO order, each dispatch completed before the
next starts, and removes both from the deferred queue, provided neither
replay's dispatch triggers a further transition or deferral.  Deferred
events are replayed at no other point: `ProcessDeferredEvent` is invoked
only from the `Sibling` branch of the dispatch loop. -/
theorem c3_fifo_replay_after_transition (prog : Prog) (cfg : Cfg)
    (fuel : Nat) (m : Machine) (e : EvHandle) (rest : List EvHandle)
    (a b : EvHandle) (d : Nat) (tg : StateId) (n : Nat) (c : List StateId)
    (hflag : cfg.abortOnUnknownEvent = false)
    (hq : m.event_queue = e :: rest)
    (hdq : m.deferred_queue = [a, b])
    (hd : d < m.state_stack.length)
    (hend : ∀ j (hj : j < m.state_stack.length), j < d →
      Dispatch prog (m.state_stack.get ⟨j, hj⟩).id e.kind = none)
    (hDa : Dispatch prog (m.state_stack.get ⟨d, hd⟩).id e.kind =
      some (Action.transitA tg))
    (hc : initChain prog n tg = some c)
    (hcalm : ∀ h ∈ m.deferred_queue, ∀ (j : Nat)
      (hj : j < (m.state_stack.take d ++ chainInstances c d).length),
      calmOpt (Dispatch prog
        ((m.state_stack.take d ++ chainInstances c d).get ⟨j, hj⟩).id
        h.kind) = true)
    (hfuel : 2 * n + 2 * d + c.length + 12 ≤ fuel) :
    ∃ m',
      ProcessQueueEvent prog cfg fuel m = .ok m' ∧
      m'.state_stack = m.state_stack.take d ++ chainInstances c d ∧
      dispatchesOf m'.trace = dispatchesOf m.trace ++ [e, a, b] ∧
      m'.deferred_queue = [] ∧
      m'.event_queue = m.event_queue := by
  obtain ⟨G, hG⟩ : ∃ G, fuel - 1 - d = G + 1 := ⟨fuel - d - 2, by omega⟩
  have htk : (List.take d m.state_stack).length = d := by
    simp [List.length_take]
    omega
  have hPQE : ProcessQueueEvent prog cfg fuel m =
      ProcessDeferredEvent prog cfg G
        { m with
          state_stack := m.state_stack.take d ++ chainInstances c d
          trace := ((((m.trace ++ [TraceEv.dispatchEv e]) ++
            consultsFor m.state_stack 0 d) ++
            [TraceEv.consult d (m.state_stack.get ⟨d, hd⟩).id]) ++
            exitsDownTo m.state_stack (m.state_stack.length - d)) ++
            chainEnters c d } := by
    have h0 := ProcessQueueEvent_scan prog cfg fuel m e rest d hq
      (Nat.le_of_lt hd) hend (by omega)
    rw [hG] at h0
    rw [h0, pqeLoop_step_transit prog cfg G
      { m with trace := (m.trace ++ [TraceEv.dispatchEv e]) ++
          consultsFor m.state_stack 0 d }
      e d hd tg hDa]
    dsimp only
    rw [PopStateAtDepth_spec
      { m with trace := ((m.trace ++ [TraceEv.dispatchEv e]) ++
          consultsFor m.state_stack 0 d) ++
          [TraceEv.consult d (m.state_stack.get ⟨d, hd⟩).id] }
      d hd]
    dsimp only
    rw [PushState_chain prog n G
      { m with
        state_stack := m.state_stack.take d
        trace := (((m.trace ++ [TraceEv.dispatchEv e]) ++
          consultsFor m.state_stack 0 d) ++
          [TraceEv.consult d (m.state_stack.get ⟨d, hd⟩).id]) ++
          exitsDownTo m.state_stack (m.state_stack.length - d) }
      tg d c hc (by omega)]
    dsimp only
    rw [htk]
  obtain ⟨m', ext2, hrun2, hst2, hev2, hdf2, hnc2, hdi2, hmem2⟩ :=
    ProcessDeferredEvent_noTransit prog cfg hflag G
      { m with
        state_stack := m.state_stack.take d ++ chainInstances c d
        trace := ((((m.trace ++ [TraceEv.dispatchEv e]) ++
          consultsFor m.state_stack 0 d) ++
          [TraceEv.consult d (m.state_stack.get ⟨d, hd⟩).id]) ++
          exitsDownTo m.state_stack (m.state_stack.length - d)) ++
          chainEnters c d }
      (by
        intro h hm j hj
        exact calmOpt_isTransitOpt _
          (hcalm h (show h ∈ m.deferred_queue from hm) j hj))
      (by
        show m.deferred_queue.length +
          (m.state_stack.take d ++ chainInstances c d).length + 4 ≤ G
        rw [hdq]
        simp only [List.length_append, chainInstances_length, htk,
          List.length_cons, List.length_nil]
        omega)
  have hext2 : ext2 = [] := by
    cases ext2 with
    | nil => rfl
    | cons x xs =>
      exfalso
      obtain ⟨hmemD, j, hj, hDj⟩ := hmem2 x (by simp)
      have hcx := hcalm x (show x ∈ m.deferred_queue from hmemD) j hj
      have hDj2 : Dispatch prog
          ((m.state_stack.take d ++ chainInstances c d).get ⟨j, hj⟩).id
          x.kind = some Action.deferA := hDj
      rw [hDj2] at hcx
      simp [calmOpt] at hcx
  refine ⟨m', hPQE.trans hrun2, hst2, ?_, ?_, hev2⟩
  · rw [hdi2]
    have hbig : dispatchesOf (((((m.trace ++ [TraceEv.dispatchEv e]) ++
        consultsFor m.state_stack 0 d) ++
        [TraceEv.consult d (m.state_stack.get ⟨d, hd⟩).id]) ++
        exitsDownTo m.state_stack (m.state_stack.length - d)) ++
        chainEnters c d) = dispatchesOf m.trace ++ [e] := by
      simp [dispatchesOf_append, dispatchesOf_consultsFor,
        dispatchesOf_exitsDownTo, dispatchesOf_chainEnters, dispatchesOf]
    show dispatchesOf (((((m.trace ++ [TraceEv.dispatchEv e]) ++
        consultsFor m.state_stack 0 d) ++
        [TraceEv.consult d (m.state_stack.get ⟨d, hd⟩).id]) ++
        exitsDownTo m.state_stack (m.state_stack.length - d)) ++
        chainEnters c d) ++ m.deferred_queue =
      dispatchesOf m.trace ++ [e, a, b]
    rw [hbig, hdq]
    simp
  · rw [hdf2, hext2]

/-- C3 witness: with deferred events `A = ⟨30, 0⟩` and `B = ⟨30, 1⟩`
pending and stack `[0, 1]`, dispatching kind `20` transitions at depth `1`
to state `2`; the replay then runs `A` and `B` exactly once each, in order,
and empties the deferred queue. -/
theorem c3_fifo_replay_witness :
    (Dispatch progW 1 20 = some (Action.transitA 2)) ∧
    ∃ m',
      ProcessQueueEvent progW cfgQuiet 30
        { initMachine with
          state_stack := [⟨0, 0⟩, ⟨1, 0⟩]
          event_queue := [⟨20, 2⟩]
          deferred_queue := [⟨30, 0⟩, ⟨30, 1⟩] } = .ok m' ∧
      m'.state_stack = ([⟨0, 0⟩, ⟨1, 0⟩] : List StateInstance).take 1 ++
        chainInstances [2] 1 ∧
      dispatchesOf m'.trace = [⟨20, 2⟩, ⟨30, 0⟩, ⟨30, 1⟩] ∧
      m'.deferred_queue = [] ∧
      m'.event_queue = [⟨20, 2⟩] := by
  have h := c3_fifo_replay_after_transition progW cfgQuiet 30
    { initMachine with
      state_stack := [⟨0, 0⟩, ⟨1, 0⟩]
      event_queue := [⟨20, 2⟩]
      deferred_queue := [⟨30, 0⟩, ⟨30, 1⟩] }
    ⟨20, 2⟩ [] ⟨30, 0⟩ ⟨30, 1⟩ 1 2 1 [2]
    rfl rfl rfl (by decide) (by decide) (by decide) (by decide) (by decide)
    (by decide)
  exact ⟨by decide, h⟩


/-- C4 witness: with stack `[0, 1]` and an event of kind `30`, the root is
consulted first and answers `NotHandled`; state `1` at depth `1` defers,
ending the dispatch with exactly the consultations `0, 1` logged. -/
theorem c4_dispatch_scan_witness :
    (Dispatch progW 0 30 = none) ∧
    ProcessQueueEvent progW cfgQuiet 20
      { initMachine with
        state_stack := [⟨0, 0⟩, ⟨1, 0⟩]
        event_queue := [⟨30, 0⟩] } =
      .ok { initMachine with
            state_stack := [⟨0, 0⟩, ⟨1, 0⟩]
            event_queue := [⟨30, 0⟩]
            deferred_queue := [⟨30, 0⟩]
            trace := TraceEv.dispatchEv ⟨30, 0⟩ ::
              consultsFor [⟨0, 0⟩, ⟨1, 0⟩] 0 2 } := by
  have h := (c4_dispatch_scan progW cfgQuiet 20
    { initMachine with
      state_stack := [⟨0, 0⟩, ⟨1, 0⟩]
      event_queue := [⟨30, 0⟩] }
    ⟨30, 0⟩ [] 1 rfl (by decide) (by decide) (by decide)).2.2.1 (by decide)
  exact ⟨by decide, h⟩

/-- C8 witness: kind `99` is claimed by no state; with the abort option on
the dispatch aborts, with it off the event is consumed with only the
diagnostic logged and the stack untouched. -/
theorem c8_unknown_event_witness :
    (Dispatch progW 0 99 = none) ∧
    ProcessQueueEvent progW cfgAbort 10
      { initMachine with
        state_stack := [⟨0, 0⟩]
        event_queue := [⟨99, 0⟩] } = .error .abortUnknown ∧
    ProcessQueueEvent progW cfgQuiet 10
      { initMachine with
        state_stack := [⟨0, 0⟩]
        event_queue := [⟨99, 0⟩] } =
      .ok { initMachine with
            state_stack := [⟨0, 0⟩]
            event_queue := [⟨99, 0⟩]
            trace := TraceEv.dispatchEv ⟨99, 0⟩ ::
              (consultsFor [⟨0, 0⟩] 0 1 ++ [TraceEv.unknownEvent]) } := by
  have h1 := (c8_unknown_event progW cfgAbort 10
    { initMachine with
      state_stack := [⟨0, 0⟩]
      event_queue := [⟨99, 0⟩] }
    ⟨99, 0⟩ [] rfl (by decide) (by decide)).1 rfl
  have h2 := (c8_unknown_event progW cfgQuiet 10
    { initMachine with
      state_stack := [⟨0, 0⟩]
      event_queue := [⟨99, 0⟩] }
    ⟨99, 0⟩ [] rfl (by decide) (by decide)).2 rfl
  exact ⟨by decide, h1, h2⟩

end Hsm
